import Mathlib

/-
Verification development for the nikolat/sirefaso crawler.

The repository has two Python variants of the same crawler class
(src/update.py and src/crawler.py).  The shared ingestion pipeline is:
search (paginated, retry-aware fetch) → crawl (per-item normalization,
classification, redirect resolution, index building) → export
(per-level documents; the src/crawler.py variant additionally emits a
JSON Feed per level).

This file shallowly embeds that pipeline:
- machine integers / instants are modelled as Int (seconds since the Unix
  epoch); Python floor division (timedelta.days) is Int.fdiv;
- strings are Lean Strings, with all character-level work done on the
  underlying List Char so that every definition evaluates in the kernel;
- the network is an explicit parameter (a function from URL to response);
- fallible code returns Except.
-/

namespace Sirefaso

/-- One raw hit from the GitHub search API, with the fields the crawler
reads: full_name, name, topics, owner.login, html_url, created_at,
pushed_at (the latter two are the raw timestamp strings). -/
structure RawItem where
  full_name : String
  name : String
  topics : List String
  owner_login : String
  html_url : String
  created_at : String
  pushed_at : String
deriving Repr, DecidableEq

/-- Timestamp pair returned by a single-repository fetch (the redirect
target): the created_at and pushed_at fields of the response JSON. -/
structure RepoInfo where
  created_at : String
  pushed_at : String
deriving Repr, DecidableEq

/-- Configuration document (config.yml): search_query, site_title,
site_description, self_url and the redirect mapping from a stale
full_name to its current repository path. -/
structure Config where
  search_query : String
  site_title : String
  site_description : String
  self_url : String
  redirect : List (String × String)
deriving Repr, DecidableEq

/-- Membership-plus-indexing on the redirect mapping: Python's
"item['full_name'] in config['redirect']" followed by
"config['redirect'][item['full_name']]". -/
def lookupRedirect (tbl : List (String × String)) (k : String) : Option String :=
  (tbl.find? (fun p => p.1 == k)).map (fun p => p.2)

/-- Canonical entry dict built by GitHubDauCrawler.crawl, one field per
dict key in the Python source. -/
structure Entry where
  id : String
  title : String
  category : String
  classname : String
  author : String
  html_url : String
  created_at_time : String
  created_at_str : String
  updated_at_time : String
  updated_at_str : String
  updated_at_rss2 : String
deriving Repr, DecidableEq

/-- Reason an item is dropped by the classifier, one constructor per
"continue" branch in GitHubDauCrawler.crawl (each has its own debug log
message in the source). -/
inductive DropReason where
  | noTaxonomyTag
  | onlyDisallowedCategories
deriving Repr, DecidableEq

/-- Denylist of category values reserved for aggregation views
(GitHubDauCrawler.__DENIED_CATEGORIES). -/
def deniedCategories : List String := ["media", "author"]

/-- Character list of the taxonomy marker "ukagaka-". -/
def ukagakaPat : List Char := "ukagaka-".data

/-- Substring test on the underlying characters: true iff the pattern
ukagakaPat occurs somewhere in the list.  Embeds Python's
"'ukagaka-' in t" (substring containment). -/
def hasUkaAux : List Char → Bool
  | [] => false
  | c :: cs => ukagakaPat.isPrefixOf (c :: cs) || hasUkaAux cs

/-- Substring test "'ukagaka-' in t" on Strings. -/
def hasUka (s : String) : Bool := hasUkaAux s.data

/-- Left-to-right, non-overlapping removal of every occurrence of
ukagakaPat, with explicit fuel (one unit per character) so the kernel
can evaluate it.  Embeds Python's t.replace('ukagaka-', ''), which
removes all non-overlapping occurrences left to right. -/
def stripUkaGo : Nat → List Char → List Char
  | 0, _ => []
  | _, [] => []
  | n + 1, c :: cs =>
    if ukagakaPat.isPrefixOf (c :: cs) then stripUkaGo n (cs.drop 7)
    else c :: stripUkaGo n cs

/-- Removal of every occurrence of "ukagaka-" from a string:
Python's t.replace('ukagaka-', ''). -/
def stripUka (s : String) : String := String.mk (stripUkaGo s.data.length s.data)

/-- Slug derivation item['full_name'].replace('/', '_').  Both pattern
and replacement are single characters, so the replacement is a
character map. -/
def slugOf (s : String) : String :=
  String.mk (s.data.map (fun c => if c = '/' then '_' else c))

/-- Numeric value of a list of decimal digit characters (most
significant first). -/
def digitsToNat (cs : List Char) : Nat :=
  cs.foldl (fun acc c => acc * 10 + (c.toNat - '0'.toNat)) 0

/-- Days from the Unix epoch of a civil date (proleptic Gregorian).
Standard civil-from-date algorithm written with floor divisions. -/
def civilToDays (y m d : Int) : Int :=
  let y2 : Int := if m ≤ 2 then y - 1 else y
  let era : Int := Int.fdiv y2 400
  let yoe : Int := y2 - era * 400
  let mp : Int := Int.emod (m + 9) 12
  let doy : Int := Int.fdiv (153 * mp + 2) 5 + d - 1
  let doe : Int := yoe * 365 + Int.fdiv yoe 4 - Int.fdiv yoe 100 + doy
  era * 146097 + doe - 719468

/-- Civil date (year, month, day) of a day count from the Unix epoch.
Inverse of civilToDays, standard date-from-civil algorithm. -/
def daysToCivil (z0 : Int) : Int × Int × Int :=
  let z : Int := z0 + 719468
  let era : Int := Int.fdiv z 146097
  let doe : Int := z - era * 146097
  let yoe : Int :=
    Int.fdiv (doe - Int.fdiv doe 1460 + Int.fdiv doe 36524 - Int.fdiv doe 146096) 365
  let y : Int := yoe + era * 400
  let doy : Int := doe - (365 * yoe + Int.fdiv yoe 4 - Int.fdiv yoe 100)
  let mp : Int := Int.fdiv (5 * doy + 2) 153
  let d : Int := doy - Int.fdiv (153 * mp + 2) 5 + 1
  let m : Int := if mp < 10 then mp + 3 else mp - 9
  (if m ≤ 2 then y + 1 else y, m, d)

/-- Epoch seconds of the fixed-format UTC timestamp string
"YYYY-MM-DDTHH:MM:SSZ".  Embeds strptime(s, '%Y-%m-%dT%H:%M:%SZ')
followed by replace(tzinfo=utc): field positions are fixed, so the
fields are read by position. -/
def parseTs (s : String) : Int :=
  let cs := s.data
  let num := fun (off len : Nat) => (digitsToNat ((cs.drop off).take len) : Int)
  civilToDays (num 0 4) (num 5 2) (num 8 2) * 86400
    + num 11 2 * 3600 + num 14 2 * 60 + num 17 2

/-- Wall-clock seconds in Asia/Tokyo of a UTC instant.  Asia/Tokyo is a
fixed UTC+9 zone (no daylight saving) for every modern timestamp, so
astimezone(ZoneInfo('Asia/Tokyo')) shifts the wall clock by 9 hours. -/
def jstOf (t : Int) : Int := t + 9 * 3600

/-- Two-digit zero padding of a field value, as strftime prints it. -/
def pad2 (n : Int) : String := if n < 10 then "0" ++ toString n else toString n

/-- Four-digit zero padding of the year, as strftime %Y prints it. -/
def pad4 (n : Int) : String :=
  if n < 10 then "000" ++ toString n
  else if n < 100 then "00" ++ toString n
  else if n < 1000 then "0" ++ toString n
  else toString n

/-- Civil fields (year, month, day, hour, minute, second) of a
wall-clock second count. -/
def splitSeconds (t : Int) : Int × Int × Int × Int × Int × Int :=
  let days := Int.fdiv t 86400
  let rem := t - days * 86400
  let ymd := daysToCivil days
  (ymd.1, ymd.2.1, ymd.2.2, Int.fdiv rem 3600, Int.fdiv (Int.emod rem 3600) 60,
    Int.emod rem 60)

/-- Rendering strftime('%Y-%m-%d %H:%M:%S') of a wall-clock second
count. -/
def fmtDisplay (t : Int) : String :=
  match splitSeconds t with
  | (y, m, d, h, mi, s) =>
    pad4 y ++ "-" ++ pad2 m ++ "-" ++ pad2 d ++ " " ++ pad2 h ++ ":" ++ pad2 mi
      ++ ":" ++ pad2 s

/-- Abbreviated weekday names in strftime %a order, indexed with
0 = Sunday. -/
def weekdayNames : List String := ["Sun", "Mon", "Tue", "Wed", "Thu", "Fri", "Sat"]

/-- Abbreviated month names in strftime %b order, indexed from 1. -/
def monthNames : List String :=
  ["Jan", "Feb", "Mar", "Apr", "May", "Jun", "Jul", "Aug", "Sep", "Oct", "Nov", "Dec"]

/-- Rendering strftime('%a, %d %b %Y %H:%M:%S %z') of an Asia/Tokyo
wall-clock second count; %z prints the fixed offset +0900.  Day 0 of
the epoch is a Thursday, so the weekday index is (days + 4) mod 7. -/
def fmtRss2 (t : Int) : String :=
  match splitSeconds t with
  | (y, m, d, h, mi, s) =>
    let days := Int.fdiv t 86400
    let wd := (Int.emod (days + 4) 7).toNat
    weekdayNames.getD wd "" ++ ", " ++ pad2 d ++ " " ++ monthNames.getD (m.toNat - 1) ""
      ++ " " ++ pad4 y ++ " " ++ pad2 h ++ ":" ++ pad2 mi ++ ":" ++ pad2 s ++ " +0900"

/-- Recency class of an entry: the source computes diff = now -
dt_updated (a timedelta) and branches on diff.days, which is the floor
of the elapsed seconds divided by 86400.  Both arguments are UTC epoch
seconds. -/
def recencyClassname (now updated : Int) : String :=
  let days := Int.fdiv (now - updated) 86400
  if days < 1 then "days-over-0"
  else if days < 7 then "days-over-1"
  else if days < 30 then "days-over-7"
  else if days < 365 then "days-over-30"
  else "days-over-365"

/-- URL stem used for the redirect-resolution fetch. -/
def apiRepoUrl : String := "https://api.github.com/repos/"

/-- Timestamp source for an item: the redirect target's fetched pair
when the full_name is redirected, the item's own pair otherwise.
Embeds the conditional overwrite of item['created_at'] and
item['pushed_at'] in GitHubDauCrawler.crawl. -/
def srcInfo (redirect : List (String × String)) (fetchRepo : String → RepoInfo)
    (item : RawItem) : RepoInfo :=
  match lookupRedirect redirect item.full_name with
  | some tgt => fetchRepo (apiRepoUrl ++ tgt)
  | none => { created_at := item.created_at, pushed_at := item.pushed_at }

/-- Entry dict literal of GitHubDauCrawler.crawl, given the already
computed category. -/
def mkEntry (redirect : List (String × String)) (fetchRepo : String → RepoInfo)
    (now : Int) (item : RawItem) (category : String) : Entry :=
  let src := srcInfo redirect fetchRepo item
  let dtCreated := parseTs src.created_at
  let dtUpdated := parseTs src.pushed_at
  { id := slugOf item.full_name
    title := item.name
    category := category
    classname := recencyClassname now dtUpdated
    author := item.owner_login
    html_url := item.html_url
    created_at_time := src.created_at
    created_at_str := fmtDisplay (jstOf dtCreated)
    updated_at_time := src.pushed_at
    updated_at_str := fmtDisplay (jstOf dtUpdated)
    updated_at_rss2 := fmtRss2 (jstOf dtUpdated) }

/-- Per-item body of the loop in GitHubDauCrawler.crawl: the topic
comprehension [t.replace('ukagaka-', '') for t in item['topics'] if
'ukagaka-' in t], the two drop branches, the denylist filter, category
= first remaining value, and the entry construction. -/
def normalizeEx (redirect : List (String × String)) (fetchRepo : String → RepoInfo)
    (now : Int) (item : RawItem) : Except DropReason Entry :=
  let types := (item.topics.filter hasUka).map stripUka
  if types.isEmpty then .error .noTaxonomyTag
  else
    match types.filter (fun t => !(deniedCategories.contains t)) with
    | [] => .error .onlyDisallowedCategories
    | category :: _ => .ok (mkEntry redirect fetchRepo now item category)

/-- Option view of normalizeEx: a dropped item simply contributes
nothing to the entry list. -/
def normOpt (redirect : List (String × String)) (fetchRepo : String → RepoInfo)
    (now : Int) (item : RawItem) : Option Entry :=
  (normalizeEx redirect fetchRepo now item).toOption

/-- Accumulated crawl state: the entries, categories and authors lists
grown by GitHubDauCrawler.crawl. -/
structure CrawlResult where
  entries : List Entry
  categories : List String
  authors : List String
deriving Repr, DecidableEq

/-- Loop body of GitHubDauCrawler.crawl for one raw item: on a drop the
state is unchanged (continue); otherwise the entry is appended, and the
category and author are appended when not already present.  The
appended category equals the entry's category field and the appended
owner login equals the entry's author field. -/
def crawlStep (redirect : List (String × String)) (fetchRepo : String → RepoInfo)
    (now : Int) (acc : CrawlResult) (item : RawItem) : CrawlResult :=
  match normalizeEx redirect fetchRepo now item with
  | .error _ => acc
  | .ok e =>
    { entries := acc.entries ++ [e]
      categories :=
        if acc.categories.contains e.category then acc.categories
        else acc.categories ++ [e.category]
      authors :=
        if acc.authors.contains e.author then acc.authors
        else acc.authors ++ [e.author] }

/-- Crawl over an already flattened raw-item stream, starting from the
empty accumulators. -/
def crawlItems (redirect : List (String × String)) (fetchRepo : String → RepoInfo)
    (now : Int) (items : List RawItem) : CrawlResult :=
  items.foldl (crawlStep redirect fetchRepo now) ⟨[], [], []⟩

/-- Outcome of raise_for_status: requests raises HTTPError exactly for
client-error and server-error status codes. -/
def raisesStatus (s : Nat) : Bool := 400 ≤ s && s < 600

/-- HTTP response as the crawler reads it: the status code, the parsed
integer value of the Retry-After header when present, the raw link
header when present, and response.json()['items']. -/
structure HttpResponse where
  status : Nat
  retryAfter : Option Nat
  link : Option String
  items : List RawItem
deriving Repr, DecidableEq

/-- Terminal fetch failure: the HTTPError that propagates out of
_request_with_retry carries the failing URL and status. -/
structure FetchError where
  url : String
  status : Nat
deriving Repr, DecidableEq

/-- Network model: for each URL, the response to the first attempt and
the response to a second attempt at that URL. -/
def Net : Type := String → HttpResponse × HttpResponse

/-- Response to the first request issued for a URL. -/
def firstResp (net : Net) (u : String) : HttpResponse := (net u).1

/-- Response to the retried request for a URL. -/
def secondResp (net : Net) (u : String) : HttpResponse := (net u).2

/-- Successful outcome of _request_with_retry: the returned response,
the backoff delays slept (in seconds), and how many requests were
issued. -/
structure ReqResult where
  response : HttpResponse
  waits : List Nat
  attempts : Nat
deriving Repr, DecidableEq

/-- Embedding of GitHubApiCrawler._request_with_retry.  On a first
response that raise_for_status rejects, and with retry enabled, the
caller sleeps the Retry-After value (180 seconds when the header is
absent) and issues the request once more; a second rejected response
re-raises.  With retry disabled the first response is returned as is
(the except block swallows the error and falls through to the return).
-/
def requestWithRetry (net : Net) (url : String) (retry : Bool) :
    Except FetchError ReqResult :=
  let r1 := firstResp net url
  if raisesStatus r1.status then
    if retry then
      let wait := r1.retryAfter.getD 180
      let r2 := secondResp net url
      if raisesStatus r2.status then .error { url := url, status := r2.status }
      else .ok { response := r2, waits := [wait], attempts := 2 }
    else .ok { response := r1, waits := [], attempts := 1 }
  else .ok { response := r1, waits := [], attempts := 1 }

/-- Marker that closes the captured group in the pagination regex:
the characters of the text between the group and the end of the
pattern. -/
def closeMarker : List Char := ">; rel=\"next\"".data

/-- Characters strictly before the first occurrence of closeMarker, or
none when the marker never occurs. -/
def upToClose : List Char → Option (List Char)
  | [] => none
  | c :: cs =>
    if closeMarker.isPrefixOf (c :: cs) then some []
    else (upToClose cs).map (fun x => c :: x)

/-- Shortest candidate for the captured group at a given start: at
least one character, up to the first occurrence of closeMarker at
offset one or later. -/
def upToClose1 : List Char → Option (List Char)
  | [] => none
  | c :: cs => (upToClose cs).map (fun x => c :: x)

/-- Leftmost-start, shortest-match extraction performed by
re.search(r'<(.+?)>; rel="next"', s): the match starts at the leftmost
opening angle bracket that is followed by a nonempty group and the
closing marker; the dot of the pattern does not cross a newline, so a
candidate group containing one fails that start. -/
def scanNext : List Char → Option (List Char)
  | [] => none
  | c :: cs =>
    if c = '<' then
      match upToClose1 cs with
      | some x => if x.contains '\n' then scanNext cs else some x
      | none => scanNext cs
    else scanNext cs

/-- Captured rel="next" URL of a link header string, when the
pagination pattern matches. -/
def regexNext (s : String) : Option String := (scanNext s.data).map String.mk

/-- Next-page URL of a response: the regex search is attempted only
when the link header is present. -/
def nextOf (r : HttpResponse) : Option String :=
  match r.link with
  | none => none
  | some h => regexNext h

/-- Initial search URL of GitHubApiCrawler.search.  The first request
also carries the payload {'q': search_query, 'sort': 'updated'}; the
network model is keyed by URL, and follow-up requests carry no
payload, exactly as in the source. -/
def searchUrl : String := "https://api.github.com/search/repositories"

/-- Embedding of the pagination loop of GitHubApiCrawler.search: fetch
the URL through the retry wrapper, append the response, and while the
link header advertises a rel="next" URL, follow it verbatim.  The
Python loop has no bound, so the recursion carries explicit fuel; the
theorems supply enough fuel for the page chain at hand.  Returns the
collected responses in page order together with the total number of
requests issued. -/
def searchAux (net : Net) : Nat → String → Except FetchError (List HttpResponse × Nat)
  | 0, url => .error { url := url, status := 0 }
  | fuel + 1, url =>
    match requestWithRetry net url true with
    | .error e => .error e
    | .ok res =>
      match nextOf res.response with
      | none => .ok ([res.response], res.attempts)
      | some u =>
        match searchAux net fuel u with
        | .error e => .error e
        | .ok (rest, n) => .ok (res.response :: rest, res.attempts + n)

/-- Entry point of the paginated fetch, starting at the fixed search
endpoint. -/
def searchPages (net : Net) (fuel : Nat) : Except FetchError (List HttpResponse × Nat) :=
  searchAux net fuel searchUrl

/-- Crawl over the collected responses: the source iterates the
responses in page order and, inside, the items of each response in
array order (the two nested for loops of GitHubDauCrawler.crawl). -/
def crawl (redirect : List (String × String)) (fetchRepo : String → RepoInfo)
    (now : Int) (responses : List HttpResponse) : CrawlResult :=
  responses.foldl
    (fun acc r => r.items.foldl (crawlStep redirect fetchRepo now) acc) ⟨[], [], []⟩

/-- One item of a JSON Feed document, with the five projected fields of
__get_feed_dict. -/
structure FeedItem where
  id : String
  url : String
  title : String
  date_published : String
  date_modified : String
deriving Repr, DecidableEq

/-- JSON Feed document built by GitHubApiCrawler.__get_feed_dict in
src/crawler.py: the five envelope fields plus the item list, one
structure field per dict key. -/
structure JsonFeed where
  version : String
  title : String
  home_page_url : String
  feed_url : String
  description : String
  items : List FeedItem
deriving Repr, DecidableEq

/-- Embedding of GitHubApiCrawler.__get_feed_dict from src/crawler.py.
-/
def getFeedDict (cfg : Config) (title base_url : String) (entries : List Entry) :
    JsonFeed :=
  { version := "https://jsonfeed.org/version/1.1"
    title := title
    home_page_url := base_url
    feed_url := base_url ++ "feed.json"
    description := cfg.site_description
    items := entries.map (fun e =>
      { id := e.id, url := e.html_url, title := e.title,
        date_published := e.created_at_time, date_modified := e.updated_at_time }) }

/-- JSON Feed documents written by GitHubApiCrawler.export in
src/crawler.py, in write order with their output paths: the site-wide
feed, then one per category in index order, then one per author in
index order, each scoped to the equality-filtered entry subset of its
level. -/
def exportFeeds (cfg : Config) (r : CrawlResult) : List (String × JsonFeed) :=
  ("docs/feed.json", getFeedDict cfg cfg.site_title cfg.self_url r.entries)
    :: (r.categories.map (fun c =>
        ("docs/" ++ c ++ "/feed.json",
          getFeedDict cfg (c ++ " | " ++ cfg.site_title) (cfg.self_url ++ c ++ "/")
            (r.entries.filter (fun e => e.category == c)))))
    ++ r.authors.map (fun a =>
        ("docs/author/" ++ a ++ "/feed.json",
          getFeedDict cfg (a ++ " | " ++ cfg.site_title)
            (cfg.self_url ++ "author/" ++ a ++ "/")
            (r.entries.filter (fun e => e.author == a))))

/-- Reference bucket map written from the specification text: the
elapsed time in seconds is compared against half-open day boundaries,
so that an elapsed time of exactly one day falls in the next bucket up.
-/
def specBucket (elapsed : Int) : String :=
  if elapsed < 86400 then "days-over-0"
  else if elapsed < 7 * 86400 then "days-over-1"
  else if elapsed < 30 * 86400 then "days-over-7"
  else if elapsed < 365 * 86400 then "days-over-30"
  else "days-over-365"

/-- First-seen deduplication written from the specification text: keep
each value at its first occurrence and delete the later duplicates,
never reordering. -/
def firstSeenList : List String → List String
  | [] => []
  | x :: xs => x :: firstSeenList (xs.filter (fun y => !(y == x)))
termination_by l => l.length
decreasing_by
  simp only [List.length_cons]
  exact Nat.lt_succ_of_le (List.length_filter_le _ _)

/-- Values of a list that are new relative to an already seen set,
appending each to the seen set as it is encountered.  Loop invariant
shape of the category and author accumulation in crawl. -/
def addNew (seen : List String) : List String → List String
  | [] => []
  | x :: xs => if seen.contains x then addNew seen xs else x :: addNew (seen ++ [x]) xs

/-- Inversion of normalizeEx: a produced entry is the mkEntry of its
item with the category taken from the head of the denylist-filtered
stripped topic list. -/
theorem normalizeEx_ok_inv {redirect : List (String × String)}
    {fetchRepo : String → RepoInfo} {now : Int} {item : RawItem} {e : Entry}
    (h : normalizeEx redirect fetchRepo now item = .ok e) :
    ∃ rest, ((item.topics.filter hasUka).map stripUka).filter
        (fun t => !(deniedCategories.contains t)) = e.category :: rest
      ∧ e = mkEntry redirect fetchRepo now item e.category := by
  unfold normalizeEx at h
  by_cases hE : ((item.topics.filter hasUka).map stripUka).isEmpty
  · simp [hE] at h
  · simp only [hE, if_false] at h
    cases hF : ((item.topics.filter hasUka).map stripUka).filter
        (fun t => !(deniedCategories.contains t)) with
    | nil => rw [hF] at h; simp at h
    | cons c rest =>
      rw [hF] at h
      simp at h
      subst h
      exact ⟨rest, rfl, rfl⟩

/-- Entries accumulated by the crawl loop: the fold appends exactly the
successfully normalized items, in arrival order. -/
theorem foldl_crawl_entries (redirect : List (String × String))
    (fetchRepo : String → RepoInfo) (now : Int) :
    ∀ (items : List RawItem) (acc : CrawlResult),
      (items.foldl (crawlStep redirect fetchRepo now) acc).entries =
        acc.entries ++ items.filterMap (normOpt redirect fetchRepo now) := by
  intro items
  induction items with
  | nil => intro acc; simp
  | cons it items ih =>
    intro acc
    simp only [List.foldl_cons, List.filterMap_cons]
    cases hn : normalizeEx redirect fetchRepo now it with
    | error r =>
      have hstep : crawlStep redirect fetchRepo now acc it = acc := by
        unfold crawlStep; rw [hn]
      have hopt : normOpt redirect fetchRepo now it = none := by
        unfold normOpt; rw [hn]; rfl
      rw [hstep, hopt, ih]
    | ok e =>
      have hopt : normOpt redirect fetchRepo now it = some e := by
        unfold normOpt; rw [hn]; rfl
      have hstep : (crawlStep redirect fetchRepo now acc it).entries =
          acc.entries ++ [e] := by
        unfold crawlStep; rw [hn]
      rw [hopt, ih]
      rw [hstep]
      simp

/-- Categories accumulated by the crawl loop, relative to an arbitrary
starting accumulator: exactly the not-yet-seen category values of the
normalized entries, appended in first-seen order. -/
theorem foldl_crawl_categories (redirect : List (String × String))
    (fetchRepo : String → RepoInfo) (now : Int) :
    ∀ (items : List RawItem) (acc : CrawlResult),
      (items.foldl (crawlStep redirect fetchRepo now) acc).categories =
        acc.categories ++ addNew acc.categories
          ((items.filterMap (normOpt redirect fetchRepo now)).map (fun e => e.category)) := by
  intro items
  induction items with
  | nil => intro acc; simp [addNew]
  | cons it items ih =>
    intro acc
    simp only [List.foldl_cons, List.filterMap_cons]
    cases hn : normalizeEx redirect fetchRepo now it with
    | error r =>
      have hstep : crawlStep redirect fetchRepo now acc it = acc := by
        unfold crawlStep; rw [hn]
      have hopt : normOpt redirect fetchRepo now it = none := by
        unfold normOpt; rw [hn]; rfl
      rw [hstep, hopt, ih]
    | ok e =>
      have hopt : normOpt redirect fetchRepo now it = some e := by
        unfold normOpt; rw [hn]; rfl
      rw [hopt]
      by_cases hc : acc.categories.contains e.category
      · have hc2 : e.category ∈ acc.categories := by simpa using hc
        have hstep2 : crawlStep redirect fetchRepo now acc it =
            { entries := acc.entries ++ [e], categories := acc.categories,
              authors := if acc.authors.contains e.author then acc.authors
                else acc.authors ++ [e.author] } := by
          unfold crawlStep; rw [hn]; simp [hc2]
        rw [hstep2, ih]
        simp only [List.map_cons, addNew]
        rw [if_pos hc]
      · have hc2 : e.category ∉ acc.categories := by simpa using hc
        have hstep2 : crawlStep redirect fetchRepo now acc it =
            { entries := acc.entries ++ [e],
              categories := acc.categories ++ [e.category],
              authors := if acc.authors.contains e.author then acc.authors
                else acc.authors ++ [e.author] } := by
          unfold crawlStep; rw [hn]; simp [hc2]
        rw [hstep2, ih]
        simp only [List.map_cons, addNew]
        rw [if_neg hc, List.append_assoc]
        rfl

/-- Authors accumulated by the crawl loop, relative to an arbitrary
starting accumulator: exactly the not-yet-seen author logins of the
normalized entries, appended in first-seen order. -/
theorem foldl_crawl_authors (redirect : List (String × String))
    (fetchRepo : String → RepoInfo) (now : Int) :
    ∀ (items : List RawItem) (acc : CrawlResult),
      (items.foldl (crawlStep redirect fetchRepo now) acc).authors =
        acc.authors ++ addNew acc.authors
          ((items.filterMap (normOpt redirect fetchRepo now)).map (fun e => e.author)) := by
  intro items
  induction items with
  | nil => intro acc; simp [addNew]
  | cons it items ih =>
    intro acc
    simp only [List.foldl_cons, List.filterMap_cons]
    cases hn : normalizeEx redirect fetchRepo now it with
    | error r =>
      have hstep : crawlStep redirect fetchRepo now acc it = acc := by
        unfold crawlStep; rw [hn]
      have hopt : normOpt redirect fetchRepo now it = none := by
        unfold normOpt; rw [hn]; rfl
      rw [hstep, hopt, ih]
    | ok e =>
      have hopt : normOpt redirect fetchRepo now it = some e := by
        unfold normOpt; rw [hn]; rfl
      rw [hopt]
      by_cases ha : acc.authors.contains e.author
      · have ha2 : e.author ∈ acc.authors := by simpa using ha
        have hstep2 : crawlStep redirect fetchRepo now acc it =
            { entries := acc.entries ++ [e],
              categories := if acc.categories.contains e.category then acc.categories
                else acc.categories ++ [e.category],
              authors := acc.authors } := by
          unfold crawlStep; rw [hn]; simp [ha2]
        rw [hstep2, ih]
        simp only [List.map_cons, addNew]
        rw [if_pos ha]
      · have ha2 : e.author ∉ acc.authors := by simpa using ha
        have hstep2 : crawlStep redirect fetchRepo now acc it =
            { entries := acc.entries ++ [e],
              categories := if acc.categories.contains e.category then acc.categories
                else acc.categories ++ [e.category],
              authors := acc.authors ++ [e.author] } := by
          unfold crawlStep; rw [hn]; simp [ha2]
        rw [hstep2, ih]
        simp only [List.map_cons, addNew]
        rw [if_neg ha, List.append_assoc]
        rfl

/-- Growing the seen set with a value filters exactly the occurrences
of that value out of the rest of the scan. -/
theorem addNew_eq_firstSeen :
    ∀ (xs seen : List String),
      addNew seen xs = firstSeenList (xs.filter (fun y => !(seen.contains y))) := by
  intro xs
  induction xs with
  | nil => intro seen; simp [addNew, firstSeenList]
  | cons x xs ih =>
    intro seen
    by_cases hx : seen.contains x
    · have hx2 : x ∈ seen := by simpa using hx
      simp only [addNew]
      rw [if_pos hx, List.filter_cons]
      simp [hx2, ih]
    · have hx2 : x ∉ seen := by simpa using hx
      simp only [addNew]
      rw [if_neg hx, List.filter_cons]
      have hkeep : (!seen.contains x) = true := by simpa using hx
      rw [if_pos hkeep]
      simp only [firstSeenList]
      rw [ih (seen ++ [x])]
      congr 1
      rw [List.filter_filter]
      congr 1
      apply List.filter_congr
      intro y hy
      by_cases hyx : y = x
      · subst hyx; simp
      · by_cases hys : y ∈ seen <;> simp [hys, hyx]

/-- Membership in a first-seen deduplication implies membership in the
scanned list. -/
theorem mem_firstSeenList {a : String} :
    ∀ {l : List String}, a ∈ firstSeenList l → a ∈ l := by
  intro l
  induction l using firstSeenList.induct with
  | case1 => intro h; simp [firstSeenList] at h
  | case2 x xs ih =>
    intro h
    rw [firstSeenList] at h
    rcases List.mem_cons.mp h with h1 | h2
    · simp [h1]
    · have := ih h2
      rcases List.mem_filter.mp this with ⟨hmem, _⟩
      exact List.mem_cons_of_mem _ hmem

/-- First-seen deduplication never keeps a value twice. -/
theorem firstSeenList_nodup : ∀ (l : List String), (firstSeenList l).Nodup := by
  intro l
  induction l using firstSeenList.induct with
  | case1 => simp [firstSeenList]
  | case2 x xs ih =>
    rw [firstSeenList]
    refine List.nodup_cons.mpr ⟨?_, ih⟩
    intro hx
    have := mem_firstSeenList hx
    rcases List.mem_filter.mp this with ⟨_, hne⟩
    simp at hne

/-- Nested iteration over responses and their item arrays is the single
pass over the page-order flattening of the item arrays. -/
theorem crawl_eq_crawlItems (redirect : List (String × String))
    (fetchRepo : String → RepoInfo) (now : Int) (responses : List HttpResponse) :
    crawl redirect fetchRepo now responses =
      crawlItems redirect fetchRepo now ((responses.map (fun r => r.items)).flatten) := by
  unfold crawl crawlItems
  generalize (⟨[], [], []⟩ : CrawlResult) = acc
  induction responses generalizing acc with
  | nil => simp
  | cons r rs ih =>
    simp only [List.map_cons, List.flatten_cons, List.foldl_cons, List.foldl_append]
    exact ih _

/-- Repository fetch stub for concrete runs that never hit a redirect.
-/
def noFetch : String → RepoInfo :=
  fun _ => { created_at := "1970-01-01T00:00:00Z", pushed_at := "1970-01-01T00:00:00Z" }

/-- Concrete raw item whose only topic contains "ukagaka-" strictly in
the middle, so it has no topic with that prefix. -/
def itemSubstr : RawItem :=
  { full_name := "alice/ghost", name := "ghost", topics := ["foo-ukagaka-bar"],
    owner_login := "alice", html_url := "https://github.com/alice/ghost",
    created_at := "2024-01-02T03:04:05Z", pushed_at := "2024-01-03T03:04:05Z" }

/-- Concrete raw item with no taxonomy topic at all. -/
def itemNoTag : RawItem :=
  { full_name := "carol/tool", name := "tool", topics := ["misc"],
    owner_login := "carol", html_url := "https://github.com/carol/tool",
    created_at := "2024-01-02T03:04:05Z", pushed_at := "2024-01-03T03:04:05Z" }

/-- Concrete raw item whose only taxonomy topic strips to a denylisted
value. -/
def itemDenied : RawItem :=
  { full_name := "dave/pics", name := "pics", topics := ["ukagaka-media"],
    owner_login := "dave", html_url := "https://github.com/dave/pics",
    created_at := "2024-01-02T03:04:05Z", pushed_at := "2024-01-03T03:04:05Z" }

/-- Concrete raw item whose only topic is exactly "ukagaka-", which
strips to the empty string. -/
def itemEmptyCat : RawItem :=
  { full_name := "bob/x", name := "x", topics := ["ukagaka-"],
    owner_login := "bob", html_url := "https://github.com/bob/x",
    created_at := "2024-01-02T03:04:05Z", pushed_at := "2024-01-03T03:04:05Z" }

/-- C1 fails as stated: the classifier keeps topics by substring
containment, not by prefix match.  The single topic of itemSubstr,
"foo-ukagaka-bar", does not start with "ukagaka-", so under the claim
the item would be dropped; the code keeps it, with every occurrence of
the marker deleted from the middle of the tag ("foo-bar"). -/
theorem c1_counterexample :
    ("ukagaka-".data.isPrefixOf "foo-ukagaka-bar".data) = false
    ∧ ((crawlItems [] noFetch 0 [itemSubstr]).entries.map (fun e => e.category))
        = ["foo-bar"] :=
  ⟨by decide, by decide⟩

/-- C1 (amended): the normalizer keeps exactly the topic tags that
contain the substring "ukagaka-", with every occurrence of that
substring removed; if no tag contains it the item is dropped with
reason noTaxonomyTag; if after removing denylisted stripped values
nothing remains it is dropped with reason onlyDisallowedCategories;
otherwise the entry's category is the first remaining tag in source
order, with no sorting. -/
theorem c1_amended_normalizer (redirect : List (String × String))
    (fetchRepo : String → RepoInfo) (now : Int) (item : RawItem) :
    (item.topics.filter hasUka = [] →
      normalizeEx redirect fetchRepo now item = .error .noTaxonomyTag)
    ∧ (item.topics.filter hasUka ≠ [] →
        ((item.topics.filter hasUka).map stripUka).filter
          (fun t => !(deniedCategories.contains t)) = [] →
        normalizeEx redirect fetchRepo now item = .error .onlyDisallowedCategories)
    ∧ (∀ c rest, ((item.topics.filter hasUka).map stripUka).filter
          (fun t => !(deniedCategories.contains t)) = c :: rest →
        normalizeEx redirect fetchRepo now item = .ok (mkEntry redirect fetchRepo now item c)
          ∧ (mkEntry redirect fetchRepo now item c).category = c) := by
  refine ⟨?_, ?_, ?_⟩
  · intro h
    simp [normalizeEx, h]
  · intro hne hden
    have hE : (((item.topics.filter hasUka).map stripUka)).isEmpty = false := by
      simp [List.isEmpty_iff, hne]
    unfold normalizeEx
    simp only [hE, Bool.false_eq_true, if_false, hden]
  · intro c rest h
    have hne : ((item.topics.filter hasUka).map stripUka) ≠ [] := by
      intro h0
      rw [h0] at h
      simp at h
    have hE : (((item.topics.filter hasUka).map stripUka)).isEmpty = false := by
      simp [List.isEmpty_iff, hne]
    constructor
    · unfold normalizeEx
      simp only [hE, Bool.false_eq_true, if_false, h]
    · rfl

/-- C1 amended-claim witness at concrete inputs covering all three
branches: no taxonomy tag, only a denylisted tag, and a kept tag. -/
theorem c1_amended_normalizer_witness :
    normalizeEx [] noFetch 0 itemNoTag = .error .noTaxonomyTag
    ∧ normalizeEx [] noFetch 0 itemDenied = .error .onlyDisallowedCategories
    ∧ normalizeEx [] noFetch 0 itemSubstr = .ok (mkEntry [] noFetch 0 itemSubstr "foo-bar") :=
  ⟨(c1_amended_normalizer [] noFetch 0 itemNoTag).1 (by decide),
   (c1_amended_normalizer [] noFetch 0 itemDenied).2.1 (by decide) (by decide),
   ((c1_amended_normalizer [] noFetch 0 itemSubstr).2.2 "foo-bar" [] (by decide)).1⟩

/-- C2: the recency class of an entry is the bucket of the elapsed time
now - updated with exact half-open boundaries; the source branches on
the floored day count of the timedelta, which agrees with direct
comparisons of the elapsed seconds against the day boundaries, so an
elapsed time of exactly 24 hours, 7 days, 30 days or 365 days falls in
the upper bucket. -/
theorem c2_recency_class_boundaries (now updated : Int) :
    recencyClassname now updated = specBucket (now - updated) := by
  have hfd : Int.fdiv (now - updated) 86400 = (now - updated) / 86400 :=
    Int.fdiv_eq_ediv _ (by norm_num)
  simp only [recencyClassname, specBucket]
  rw [hfd]
  split_ifs <;> first | rfl | omega

/-- C3: for every outbound request, a rejected first response causes
one wait of the Retry-After value (180 seconds when absent) and exactly
one retry; a rejected retry propagates the error with the URL and
status; a successful first response is returned with no wait and no
retry; a successful retry is returned without error. -/
theorem c3_retry_policy (net : Net) (url : String) :
    (raisesStatus (firstResp net url).status = false →
      requestWithRetry net url true =
        .ok { response := firstResp net url, waits := [], attempts := 1 })
    ∧ (raisesStatus (firstResp net url).status = true →
        raisesStatus (secondResp net url).status = false →
        requestWithRetry net url true =
          .ok { response := secondResp net url,
                waits := [(firstResp net url).retryAfter.getD 180], attempts := 2 })
    ∧ (raisesStatus (firstResp net url).status = true →
        raisesStatus (secondResp net url).status = true →
        requestWithRetry net url true =
          .error { url := url, status := (secondResp net url).status }) := by
  refine ⟨?_, ?_, ?_⟩
  · intro h1
    simp [requestWithRetry, h1]
  · intro h1 h2
    simp [requestWithRetry, h1, h2]
  · intro h1 h2
    simp [requestWithRetry, h1, h2]

/-- Network stub whose every first attempt succeeds. -/
def netOk : Net := fun _ =>
  ({ status := 200, retryAfter := none, link := none, items := [] },
   { status := 500, retryAfter := none, link := none, items := [] })

/-- Network stub whose first attempt fails without a Retry-After header
and whose retry succeeds. -/
def netFailOk : Net := fun _ =>
  ({ status := 500, retryAfter := none, link := none, items := [] },
   { status := 200, retryAfter := none, link := none, items := [] })

/-- Network stub whose attempts both fail. -/
def netFailFail : Net := fun _ =>
  ({ status := 500, retryAfter := some 7, link := none, items := [] },
   { status := 503, retryAfter := none, link := none, items := [] })

/-- C3 witness covering the three retry branches at concrete
responses. -/
theorem c3_retry_policy_witness :
    requestWithRetry netOk "u" true =
      .ok { response := { status := 200, retryAfter := none, link := none, items := [] },
            waits := [], attempts := 1 }
    ∧ requestWithRetry netFailOk "u" true =
        .ok { response := { status := 200, retryAfter := none, link := none, items := [] },
              waits := [180], attempts := 2 }
    ∧ requestWithRetry netFailFail "u" true = .error { url := "u", status := 503 } :=
  ⟨(c3_retry_policy netOk "u").1 (by decide),
   (c3_retry_policy netFailOk "u").2.1 (by decide) (by decide),
   (c3_retry_policy netFailFail "u").2.2 (by decide) (by decide)⟩

/-- C4: for any input items, the category index and the author index
contain each distinct value exactly once, in order of first occurrence
in the canonical entry sequence: each index equals the first-seen
deduplication of the corresponding entry projection and has no
duplicates. -/
theorem c4_indices_first_seen (redirect : List (String × String))
    (fetchRepo : String → RepoInfo) (now : Int) (items : List RawItem) :
    ((crawlItems redirect fetchRepo now items).categories =
        firstSeenList ((crawlItems redirect fetchRepo now items).entries.map
          (fun e => e.category)))
    ∧ (crawlItems redirect fetchRepo now items).categories.Nodup
    ∧ ((crawlItems redirect fetchRepo now items).authors =
        firstSeenList ((crawlItems redirect fetchRepo now items).entries.map
          (fun e => e.author)))
    ∧ (crawlItems redirect fetchRepo now items).authors.Nodup := by
  have hE := foldl_crawl_entries redirect fetchRepo now items ⟨[], [], []⟩
  have hC := foldl_crawl_categories redirect fetchRepo now items ⟨[], [], []⟩
  have hA := foldl_crawl_authors redirect fetchRepo now items ⟨[], [], []⟩
  simp only [List.nil_append] at hE hC hA
  have hnil : ∀ (L : List String), addNew [] L = firstSeenList L := by
    intro L
    rw [addNew_eq_firstSeen]
    congr 1
    simp
  unfold crawlItems
  rw [hE, hC, hA, hnil, hnil]
  exact ⟨rfl, firstSeenList_nodup _, rfl, firstSeenList_nodup _⟩

/-- C5 fails as stated: a topic consisting of exactly the marker
"ukagaka-" strips to the empty string, which is not denylisted, so the
code emits a canonical entry whose category is empty. -/
theorem c5_counterexample :
    ((crawlItems [] noFetch 0 [itemEmptyCat]).entries.map (fun e => e.category))
      = [""] := by
  decide

/-- C5 (amended): the category of every canonical entry is never a
denylisted value; it can be the empty string, which happens exactly
when the first kept tag strips to "". -/
theorem c5_amended_category_not_denied (redirect : List (String × String))
    (fetchRepo : String → RepoInfo) (now : Int) (items : List RawItem) :
    ∀ e ∈ (crawlItems redirect fetchRepo now items).entries,
      ¬ e.category ∈ deniedCategories := by
  intro e he
  unfold crawlItems at he
  rw [foldl_crawl_entries] at he
  simp only [List.nil_append] at he
  rcases List.mem_filterMap.mp he with ⟨it, _, hnorm⟩
  have hok : normalizeEx redirect fetchRepo now it = .ok e := by
    unfold normOpt at hnorm
    cases h : normalizeEx redirect fetchRepo now it with
    | error r => rw [h] at hnorm; simp [Except.toOption] at hnorm
    | ok a =>
      rw [h] at hnorm
      simp [Except.toOption] at hnorm
      rw [hnorm]
  obtain ⟨rest, hf, _⟩ := normalizeEx_ok_inv hok
  have hmemf : e.category ∈ (((it.topics.filter hasUka).map stripUka).filter
      (fun t => !(deniedCategories.contains t))) := by
    rw [hf]
    exact List.mem_cons_self _ _
  have hpred := (List.mem_filter.mp hmemf).2
  simpa using hpred

/-- C5 amended-claim witness: the concrete entry produced from
itemSubstr has a category outside the denylist. -/
theorem c5_amended_category_not_denied_witness :
    ¬ (mkEntry [] noFetch 0 itemSubstr "foo-bar").category ∈ deniedCategories :=
  c5_amended_category_not_denied [] noFetch 0 [itemSubstr]
    (mkEntry [] noFetch 0 itemSubstr "foo-bar") (by
      have h : (crawlItems [] noFetch 0 [itemSubstr]).entries
          = [mkEntry [] noFetch 0 itemSubstr "foo-bar"] := by rfl
      rw [h]
      exact List.mem_cons_self _ _)

/-- Inversion of the Option view: a produced entry comes from an ok
result of the classifier. -/
theorem normOpt_some_inv {redirect : List (String × String)}
    {fetchRepo : String → RepoInfo} {now : Int} {item : RawItem} {e : Entry}
    (h : normOpt redirect fetchRepo now item = some e) :
    normalizeEx redirect fetchRepo now item = .ok e := by
  unfold normOpt at h
  cases h2 : normalizeEx redirect fetchRepo now item with
  | error r => rw [h2] at h; simp [Except.toOption] at h
  | ok a =>
    rw [h2] at h
    simp [Except.toOption] at h
    rw [h]

/-- C6: every JSON Feed document written by export carries the fixed
version string, the configured site description and a feed_url formed
from its home_page_url; its items are the exact one-per-entry
projection id, url, title, date_published, date_modified of its
level's entry subset; and the written paths are exactly one site-wide
feed, one per category and one per author, in index order. -/
theorem c6_export_feed_levels (cfg : Config) (r : CrawlResult) :
    ((exportFeeds cfg r).map (fun pf => pf.1) =
        "docs/feed.json" :: r.categories.map (fun c => "docs/" ++ c ++ "/feed.json")
          ++ r.authors.map (fun a => "docs/author/" ++ a ++ "/feed.json"))
    ∧ ∀ pf ∈ exportFeeds cfg r,
        pf.2.version = "https://jsonfeed.org/version/1.1"
        ∧ pf.2.description = cfg.site_description
        ∧ pf.2.feed_url = pf.2.home_page_url ++ "feed.json"
        ∧ ∃ scope : List Entry,
            ((scope = r.entries ∧ pf.2.title = cfg.site_title
                ∧ pf.2.home_page_url = cfg.self_url)
              ∨ (∃ c ∈ r.categories, scope = r.entries.filter (fun e => e.category == c)
                  ∧ pf.2.title = c ++ " | " ++ cfg.site_title
                  ∧ pf.2.home_page_url = cfg.self_url ++ c ++ "/")
              ∨ (∃ a ∈ r.authors, scope = r.entries.filter (fun e => e.author == a)
                  ∧ pf.2.title = a ++ " | " ++ cfg.site_title
                  ∧ pf.2.home_page_url = cfg.self_url ++ "author/" ++ a ++ "/"))
            ∧ pf.2.items = scope.map (fun e =>
                { id := e.id, url := e.html_url, title := e.title,
                  date_published := e.created_at_time,
                  date_modified := e.updated_at_time }) := by
  constructor
  · simp [exportFeeds, Function.comp_def]
  · intro pf hpf
    simp only [exportFeeds, List.mem_cons, List.mem_append, List.mem_map] at hpf
    rcases hpf with (htop | ⟨c, hc, hpf⟩) | ⟨a, ha, hpf⟩
    · subst htop
      exact ⟨rfl, rfl, rfl,
        r.entries, Or.inl ⟨rfl, rfl, rfl⟩, rfl⟩
    · subst hpf
      exact ⟨rfl, rfl, rfl,
        r.entries.filter (fun e => e.category == c),
        Or.inr (Or.inl ⟨c, hc, rfl, rfl, rfl⟩), rfl⟩
    · subst hpf
      exact ⟨rfl, rfl, rfl,
        r.entries.filter (fun e => e.author == a),
        Or.inr (Or.inr ⟨a, ha, rfl, rfl, rfl⟩), rfl⟩

/-- Concrete configuration for witnesses. -/
def cfg0 : Config :=
  { search_query := "topic:ukagaka", site_title := "T", site_description := "D",
    self_url := "https://example.com/", redirect := [] }

/-- Concrete crawl result for witnesses: one entry, one category, one
author. -/
def r0 : CrawlResult :=
  { entries := [mkEntry [] noFetch 0 itemSubstr "foo-bar"],
    categories := ["foo-bar"], authors := ["alice"] }

/-- C6 witness: the site-wide feed of a concrete run carries the fixed
version and the configured description. -/
theorem c6_export_feed_levels_witness :
    (getFeedDict cfg0 cfg0.site_title cfg0.self_url r0.entries).version
        = "https://jsonfeed.org/version/1.1"
    ∧ (getFeedDict cfg0 cfg0.site_title cfg0.self_url r0.entries).description
        = cfg0.site_description := by
  have h := (c6_export_feed_levels cfg0 r0).2
    ("docs/feed.json", getFeedDict cfg0 cfg0.site_title cfg0.self_url r0.entries)
    (by unfold exportFeeds; exact List.mem_cons_self _ _)
  exact ⟨h.1, h.2.1⟩

/-- C7: for an entry produced from a redirected item, the machine
timestamps are the pair fetched from the redirect target, while
category, author and url stay those derived from the original item;
an entry from a non-redirected item keeps the item's own timestamps.
-/
theorem c7_redirect_frame (redirect : List (String × String))
    (fetchRepo : String → RepoInfo) (now : Int) (item : RawItem) (e : Entry)
    (hok : normalizeEx redirect fetchRepo now item = .ok e) :
    (∀ tgt, lookupRedirect redirect item.full_name = some tgt →
      e.created_at_time = (fetchRepo (apiRepoUrl ++ tgt)).created_at
        ∧ e.updated_at_time = (fetchRepo (apiRepoUrl ++ tgt)).pushed_at)
    ∧ (lookupRedirect redirect item.full_name = none →
        e.created_at_time = item.created_at ∧ e.updated_at_time = item.pushed_at)
    ∧ e.author = item.owner_login
    ∧ e.html_url = item.html_url
    ∧ e.category ∈ (item.topics.filter hasUka).map stripUka := by
  obtain ⟨rest, hf, he⟩ := normalizeEx_ok_inv hok
  have hcat : e.category ∈ (item.topics.filter hasUka).map stripUka := by
    have hmem : e.category ∈ (((item.topics.filter hasUka).map stripUka).filter
        (fun t => !(deniedCategories.contains t))) := by
      rw [hf]
      exact List.mem_cons_self _ _
    exact List.mem_of_mem_filter hmem
  refine ⟨?_, ?_, ?_, ?_, hcat⟩
  · intro tgt htgt
    rw [he]
    simp [mkEntry, srcInfo, htgt]
  · intro hnone
    rw [he]
    simp [mkEntry, srcInfo, hnone]
  · rw [he]; rfl
  · rw [he]; rfl

/-- Redirect table for witnesses: one stale identity path. -/
def redirectTbl : List (String × String) := [("eve/old", "eve/new")]

/-- Repository fetch stub returning authoritative timestamps for the
redirect target. -/
def fetchNew : String → RepoInfo := fun u =>
  if u = "https://api.github.com/repos/eve/new" then
    { created_at := "2020-01-01T00:00:00Z", pushed_at := "2020-06-01T00:00:00Z" }
  else
    { created_at := "1970-01-01T00:00:00Z", pushed_at := "1970-01-01T00:00:00Z" }

/-- Concrete raw item whose identity path is redirected. -/
def itemRedirected : RawItem :=
  { full_name := "eve/old", name := "old", topics := ["ukagaka-ghost"],
    owner_login := "eve", html_url := "https://github.com/eve/old",
    created_at := "2019-01-01T00:00:00Z", pushed_at := "2019-06-01T00:00:00Z" }

/-- C7 witness: the redirected concrete item's entry takes the fetched
timestamps and keeps the original author and url. -/
theorem c7_redirect_frame_witness :
    (mkEntry redirectTbl fetchNew 0 itemRedirected "ghost").created_at_time
        = (fetchNew (apiRepoUrl ++ "eve/new")).created_at
    ∧ (mkEntry redirectTbl fetchNew 0 itemRedirected "ghost").updated_at_time
        = (fetchNew (apiRepoUrl ++ "eve/new")).pushed_at
    ∧ (mkEntry redirectTbl fetchNew 0 itemRedirected "ghost").author
        = itemRedirected.owner_login
    ∧ (mkEntry redirectTbl fetchNew 0 itemRedirected "ghost").html_url
        = itemRedirected.html_url := by
  have h := c7_redirect_frame redirectTbl fetchNew 0 itemRedirected
    (mkEntry redirectTbl fetchNew 0 itemRedirected "ghost") (by rfl)
  have h1 := h.1 "eve/new" (by rfl)
  exact ⟨h1.1, h1.2, h.2.2.1, h.2.2.2.1⟩

/-- C9 fails as stated: nothing deduplicates the input, so the same
raw item arriving twice produces two canonical entries with the same
id. -/
theorem c9_counterexample :
    ((crawlItems [] noFetch 0 [itemSubstr, itemSubstr]).entries.map (fun e => e.id))
        = ["alice_ghost", "alice_ghost"]
    ∧ ¬ ((crawlItems [] noFetch 0 [itemSubstr, itemSubstr]).entries.map
          (fun e => e.id)).Nodup :=
  ⟨by decide, by decide⟩

/-- C9 (amended): each entry id is the item's identity path with the
path separator replaced by an underscore, and the ids are pairwise
distinct whenever the slugs of the input items are pairwise distinct
(duplicate hits, or distinct identity paths that collide after the
replacement, can produce duplicate ids). -/
theorem filterMap_ids_sublist (redirect : List (String × String))
    (fetchRepo : String → RepoInfo) (now : Int) :
    ∀ (items : List RawItem),
      ((items.filterMap (normOpt redirect fetchRepo now)).map
        (fun e => e.id)).Sublist (items.map (fun it => slugOf it.full_name)) := by
  intro items
  induction items with
  | nil => simp
  | cons it its ih =>
    simp only [List.filterMap_cons, List.map_cons]
    cases hn : normOpt redirect fetchRepo now it with
    | none => exact ih.cons _
    | some e =>
      have hid : e.id = slugOf it.full_name := by
        obtain ⟨rest, hf, he⟩ := normalizeEx_ok_inv (normOpt_some_inv hn)
        rw [he]
        rfl
      simp only [List.map_cons, hid]
      exact ih.cons₂ _

theorem c9_amended_ids_distinct (redirect : List (String × String))
    (fetchRepo : String → RepoInfo) (now : Int) (items : List RawItem)
    (h : (items.map (fun it => slugOf it.full_name)).Nodup) :
    ((crawlItems redirect fetchRepo now items).entries.map (fun e => e.id)).Nodup := by
  have hE := foldl_crawl_entries redirect fetchRepo now items ⟨[], [], []⟩
  simp only [List.nil_append] at hE
  unfold crawlItems
  rw [hE]
  exact List.Nodup.sublist (filterMap_ids_sublist redirect fetchRepo now items) h

/-- C9 amended-claim witness: two concrete items with distinct slugs
produce distinct entry ids. -/
theorem c9_amended_ids_distinct_witness :
    (([itemSubstr, itemEmptyCat].map (fun it => slugOf it.full_name)).Nodup)
    ∧ ((crawlItems [] noFetch 0 [itemSubstr, itemEmptyCat]).entries.map
        (fun e => e.id)).Nodup :=
  ⟨by decide, c9_amended_ids_distinct [] noFetch 0 [itemSubstr, itemEmptyCat] (by decide)⟩

/-- C10: the machine timestamp fields of every entry are byte-for-byte
the strings received from the source (the redirect target's pair when
redirected, the item's own pair otherwise), with no timezone
conversion, and they flow unchanged into the JSON Feed item fields
date_published and date_modified; only the display fields are rendered
after the shift to Asia/Tokyo wall-clock time. -/
theorem c10_timestamp_fields (redirect : List (String × String))
    (fetchRepo : String → RepoInfo) (now : Int) (item : RawItem) (e : Entry)
    (hok : normalizeEx redirect fetchRepo now item = .ok e) :
    e.created_at_time = (srcInfo redirect fetchRepo item).created_at
    ∧ e.updated_at_time = (srcInfo redirect fetchRepo item).pushed_at
    ∧ e.created_at_str =
        fmtDisplay (jstOf (parseTs (srcInfo redirect fetchRepo item).created_at))
    ∧ e.updated_at_str =
        fmtDisplay (jstOf (parseTs (srcInfo redirect fetchRepo item).pushed_at))
    ∧ e.updated_at_rss2 =
        fmtRss2 (jstOf (parseTs (srcInfo redirect fetchRepo item).pushed_at))
    ∧ (∀ cfg title base,
        ((getFeedDict cfg title base [e]).items.map (fun it => it.date_published)
            = [(srcInfo redirect fetchRepo item).created_at])
        ∧ ((getFeedDict cfg title base [e]).items.map (fun it => it.date_modified)
            = [(srcInfo redirect fetchRepo item).pushed_at])) := by
  obtain ⟨rest, hf, he⟩ := normalizeEx_ok_inv hok
  rw [he]
  refine ⟨rfl, rfl, rfl, rfl, rfl, ?_⟩
  intro cfg title base
  exact ⟨rfl, rfl⟩

/-- C10 witness at a concrete non-redirected item: the machine fields
equal the item's own strings and the display field is the Asia/Tokyo
rendering. -/
theorem c10_timestamp_fields_witness :
    (mkEntry [] noFetch 0 itemSubstr "foo-bar").created_at_time
        = (srcInfo [] noFetch itemSubstr).created_at
    ∧ (mkEntry [] noFetch 0 itemSubstr "foo-bar").created_at_str
        = fmtDisplay (jstOf (parseTs (srcInfo [] noFetch itemSubstr).created_at)) := by
  have h := c10_timestamp_fields [] noFetch 0 itemSubstr
    (mkEntry [] noFetch 0 itemSubstr "foo-bar") (by rfl)
  exact ⟨h.1, h.2.2.1⟩

/-- Page chain hypothesis for pagination: each page is the successful
first response at its URL, and each page except the last advertises
the next page's URL through its link header. -/
def Chain (net : Net) : String → List HttpResponse → Prop
  | _, [] => False
  | u, [r] => firstResp net u = r ∧ raisesStatus r.status = false ∧ nextOf r = none
  | u, r :: r2 :: rest =>
      firstResp net u = r ∧ raisesStatus r.status = false
        ∧ ∃ u2, nextOf r = some u2 ∧ Chain net u2 (r2 :: rest)

/-- A successful first response passes straight through the retry
wrapper with one request and no wait. -/
theorem requestWithRetry_ok_first {net : Net} {u : String} {r : HttpResponse}
    (h1 : firstResp net u = r) (h2 : raisesStatus r.status = false) :
    requestWithRetry net u true = .ok { response := r, waits := [], attempts := 1 } := by
  unfold requestWithRetry
  rw [h1]
  simp [h2]

/-- C8: for a chain of N pages in which every page but the last
carries a rel="next" link, the fetcher issues exactly N requests,
follows each advertised URL verbatim, and returns the N pages in page
order; and the crawler consumes the responses as the page-order
flattening of their item arrays, preserving page order then item order
within each page. -/
theorem c8_pagination (net : Net) (u : String) (pages : List HttpResponse)
    (fuel : Nat) (hchain : Chain net u pages) (hfuel : pages.length ≤ fuel) :
    searchAux net fuel u = .ok (pages, pages.length)
    ∧ ∀ (redirect : List (String × String)) (fetchRepo : String → RepoInfo) (now : Int),
        crawl redirect fetchRepo now pages =
          crawlItems redirect fetchRepo now ((pages.map (fun r => r.items)).flatten) := by
  refine ⟨?_, fun redirect fetchRepo now => crawl_eq_crawlItems redirect fetchRepo now pages⟩
  induction pages generalizing u fuel with
  | nil => simp [Chain] at hchain
  | cons p rest ih =>
    cases rest with
    | nil =>
      obtain ⟨h1, h2, h3⟩ := hchain
      cases fuel with
      | zero => simp at hfuel
      | succ f =>
        simp only [searchAux]
        rw [requestWithRetry_ok_first h1 h2]
        simp [h3]
    | cons q rest2 =>
      obtain ⟨h1, h2, u2, hnext, hchain2⟩ := hchain
      cases fuel with
      | zero => simp at hfuel
      | succ f =>
        have hfuel2 : (q :: rest2).length ≤ f := by
          simp only [List.length_cons] at hfuel ⊢
          omega
        have hih := ih u2 f hchain2 hfuel2
        simp only [searchAux]
        rw [requestWithRetry_ok_first h1 h2]
        simp only [hnext, hih]
        simp [List.length_cons, Nat.add_comm]

/-- Second page of the concrete pagination run: no link header. -/
def page2 : HttpResponse :=
  { status := 200, retryAfter := none, link := none, items := [itemNoTag] }

/-- First page of the concrete pagination run: its link header
advertises the second page. -/
def page1 : HttpResponse :=
  { status := 200, retryAfter := none,
    link := some "<https://api.github.com/search/repositories?page=2>; rel=\"next\"",
    items := [itemSubstr] }

/-- Network for the concrete pagination run: the follow-up URL serves
page2, every other URL serves page1. -/
def net2 : Net := fun u =>
  if u = "https://api.github.com/search/repositories?page=2" then (page2, page2)
  else (page1, page1)

/-- C8 witness: a concrete two-page chain is fetched with exactly two
requests, in page order. -/
theorem c8_pagination_witness :
    searchAux net2 2 searchUrl = .ok ([page1, page2], 2) := by
  have hchain : Chain net2 searchUrl [page1, page2] := by
    show firstResp net2 searchUrl = page1 ∧ raisesStatus page1.status = false
        ∧ ∃ u2, nextOf page1 = some u2 ∧ Chain net2 u2 [page2]
    refine ⟨by decide, by decide,
      "https://api.github.com/search/repositories?page=2", by decide, ?_⟩
    show firstResp net2 "https://api.github.com/search/repositories?page=2" = page2
        ∧ raisesStatus page2.status = false ∧ nextOf page2 = none
    exact ⟨by decide, by decide, by decide⟩
  exact (c8_pagination net2 searchUrl [page1, page2] 2 hchain (by decide)).1

end Sirefaso
